import Mathlib

/-!
Verification of the graph-rewriting and rule-matching engine of
`rmgpy/data/kinetics.py` (reaction recipes, reaction enumeration with
duplicate merging, template-based kinetics lookup, and the group-additivity
fitter).  Molecular-graph primitives (isomorphism testing, resonance-isomer
generation, subgraph matching) are external collaborators of that module and
are taken as parameters here; everything in the module itself is embedded
directly from the source.
-/

/-- Decidable equality for `Except` results, used to evaluate the embedded
functions on concrete witnesses. -/
instance exceptDecidableEq {ε α : Type} [DecidableEq ε] [DecidableEq α] :
    DecidableEq (Except ε α) := fun x y =>
  match x, y with
  | .ok a, .ok b =>
    if h : a = b then isTrue (by rw [h]) else isFalse (by simp [h])
  | .error e, .error f =>
    if h : e = f then isTrue (by rw [h]) else isFalse (by simp [h])
  | .ok _, .error _ => isFalse (by simp)
  | .error _, .ok _ => isFalse (by simp)

namespace RMG

/-! ## Molecular structures (the part of the collaborator state the recipe
engine edits: atom labels, per-atom radical counts, and bonds with orders). -/

/-- An atom as the recipe engine sees it: a string label marking a reactive
center and a radical-electron count.  (Element/atom-type data is owned by the
molecular-graph collaborator and is not touched by the recipe engine.) -/
structure Atom where
  label : String
  radicals : Nat
deriving DecidableEq

/-- Normalized key for the bond between atoms at indices `i` and `j`. -/
def pkey (i j : Nat) : Nat × Nat :=
  if i ≤ j then (i, j) else (j, i)

/-- A structure (one or more molecules merged together): a list of atoms,
indexed by position, and a bond map from normalized index pairs to bond
orders (single = 1, double = 2, triple = 3). -/
structure Struct where
  atoms : List Atom
  bonds : List ((Nat × Nat) × Int)
deriving DecidableEq

/-- Index of the first atom carrying `label`, mirroring
`struct.getLabeledAtom(label)` (which returns `None` when no atom has the
label).  Returning the index lets `atom1 is atom2` be index equality. -/
def Struct.getLabeledAtom (s : Struct) (label : String) : Option Nat :=
  s.atoms.findIdx? (fun a => a.label == label)

/-- Order of the bond between atoms `i` and `j`, if any (`struct.getBond`). -/
def Struct.getBond (s : Struct) (i j : Nat) : Option Int :=
  s.bonds.lookup (pkey i j)

/-- Mirrors `struct.hasBond(atom1, atom2)`. -/
def Struct.hasBond (s : Struct) (i j : Nat) : Bool :=
  (s.getBond i j).isSome

/-- Mirrors `struct.addBond`: the underlying graph keeps one bond per atom
pair (a dictionary entry), so adding stores the new order for that key. -/
def Struct.addBond (s : Struct) (i j : Nat) (o : Int) : Struct :=
  { s with bonds := (pkey i j, o) :: s.bonds.filter (fun e => decide (e.1 ≠ pkey i j)) }

/-- Mirrors `struct.removeBond`. -/
def Struct.removeBond (s : Struct) (i j : Nat) : Struct :=
  { s with bonds := s.bonds.filter (fun e => decide (e.1 ≠ pkey i j)) }

/-- Mirrors `bond.applyAction(['CHANGE_BOND', ...])`: the existing bond's
order is incremented by `n`. -/
def Struct.changeBond (s : Struct) (i j : Nat) (n : Int) : Struct :=
  { s with bonds := s.bonds.map (fun e => if e.1 = pkey i j then (e.1, e.2 + n) else e) }

/-- Replace the atom at index `i` by `f` applied to it. -/
def modifyAtom (f : Atom → Atom) : Nat → List Atom → List Atom
  | _, [] => []
  | 0, a :: as => f a :: as
  | n + 1, a :: as => a :: modifyAtom f n as

/-- Well-formedness used by the collaborator's bond transitions: every stored
bond order is single, double or triple. -/
def Struct.wfb (s : Struct) : Bool :=
  s.bonds.all (fun e => decide (1 ≤ e.2 ∧ e.2 ≤ 3))

/-! ## Reaction recipes (`ReactionRecipe`) -/

/-- A recipe action (`ReactionRecipe` stores these as lists
`[name, label1, info, label2]` or `[name, label, change]`). -/
inductive Action where
  | changeBond (label1 : String) (info : Int) (label2 : String)
  | formBond (label1 : String) (info : Int) (label2 : String)
  | breakBond (label1 : String) (info : Int) (label2 : String)
  | gainRadical (label : String) (change : Int)
  | loseRadical (label : String) (change : Int)
deriving DecidableEq

/-- Failures during recipe application.  `invalidAction` is the
`InvalidActionError` raised by `ReactionRecipe.__apply` itself;
`invalidTransition` models the collaborator `applyAction` failing on an
invalid bond-order or radical transition; `attributeError` models the crash
of `CHANGE_BOND` on a missing bond (`getBond` returns `None` and the code
calls `applyAction` on it without a check). -/
inductive RecipeError where
  | invalidAction
  | invalidTransition
  | attributeError
deriving DecidableEq

/-- Mirrors `ReactionRecipe.getReverse`: each action is individually
inverted, while the original action order is preserved. -/
def getReverse (actions : List Action) : List Action :=
  actions.map fun a =>
    match a with
    | .changeBond l1 n l2 => .changeBond l1 (-n) l2
    | .formBond l1 i l2 => .breakBond l1 i l2
    | .breakBond l1 i l2 => .formBond l1 i l2
    | .loseRadical l c => .gainRadical l c
    | .gainRadical l c => .loseRadical l c

/-- Resolve the two operand atoms of a structural action by label, failing
exactly when `atom1 is None or atom2 is None or atom1 is atom2`. -/
def getTwoLabeledAtoms (s : Struct) (l1 l2 : String) : Except RecipeError (Nat × Nat) :=
  match s.getLabeledAtom l1, s.getLabeledAtom l2 with
  | some i1, some i2 => if i1 = i2 then .error .invalidAction else .ok (i1, i2)
  | some _, none => .error .invalidAction
  | none, _ => .error .invalidAction

/-- The bond-adding branch of `__apply` (`FORM_BOND` forward, `BREAK_BOND`
reverse): a fresh single bond is stored between the two atoms. -/
def bondAdd (s : Struct) (i1 i2 : Nat) : Except RecipeError Struct :=
  .ok (s.addBond i1 i2 1)

/-- The bond-removing branch of `__apply` (`BREAK_BOND` forward, `FORM_BOND`
reverse): raises `InvalidAction` when no bond exists. -/
def bondRemove (s : Struct) (i1 i2 : Nat) : Except RecipeError Struct :=
  if s.hasBond i1 i2 then .ok (s.removeBond i1 i2)
  else .error .invalidAction

/-- The `CHANGE_BOND` branch of `__apply`: the signed magnitude is negated
when applying in reverse; a missing bond crashes (no `InvalidAction` guard);
the collaborator transition fails outside the single/double/triple range. -/
def bondChange (doForward : Bool) (s : Struct) (i1 i2 : Nat) (n : Int) :
    Except RecipeError Struct :=
  match s.getBond i1 i2 with
  | none => .error .attributeError
  | some o =>
    let info := if doForward then n else -n
    if 1 ≤ o + info ∧ o + info ≤ 3 then .ok (s.changeBond i1 i2 info)
    else .error .invalidTransition

/-- One step of the `for i in range(change)` loop of the radical actions:
each step gains or loses a single radical electron, and losing from an atom
with none is an invalid collaborator transition. -/
def radicalSteps (gain : Bool) : Nat → Nat → Except RecipeError Nat
  | 0, r => .ok r
  | n + 1, r =>
    if gain then radicalSteps gain n (r + 1)
    else if r = 0 then .error .invalidTransition
    else radicalSteps gain n (r - 1)

/-- The `GAIN_RADICAL`/`LOSE_RADICAL` branch of `__apply`: resolve the single
operand atom (raising `InvalidAction` when the label is missing), then apply
`change` single-electron steps, gaining on `GAIN_RADICAL` forward or
`LOSE_RADICAL` reverse and losing otherwise. -/
def radicalChange (gain : Bool) (s : Struct) (label : String) (change : Int) :
    Except RecipeError Struct :=
  match s.getLabeledAtom label with
  | none => .error .invalidAction
  | some i =>
    match s.atoms.get? i with
    | none => .error .invalidAction
    | some a =>
      match radicalSteps gain change.toNat a.radicals with
      | .ok r => .ok { s with atoms := modifyAtom (fun a0 => { a0 with radicals := r }) i s.atoms }
      | .error e => .error e

/-- One action of `ReactionRecipe.__apply(struct, doForward)`. -/
def applyActionStep (doForward : Bool) (s : Struct) (a : Action) :
    Except RecipeError Struct :=
  match a with
  | .changeBond l1 n l2 =>
    match getTwoLabeledAtoms s l1 l2 with
    | .error e => .error e
    | .ok (i1, i2) => bondChange doForward s i1 i2 n
  | .formBond l1 _ l2 =>
    match getTwoLabeledAtoms s l1 l2 with
    | .error e => .error e
    | .ok (i1, i2) => if doForward then bondAdd s i1 i2 else bondRemove s i1 i2
  | .breakBond l1 _ l2 =>
    match getTwoLabeledAtoms s l1 l2 with
    | .error e => .error e
    | .ok (i1, i2) => if doForward then bondRemove s i1 i2 else bondAdd s i1 i2
  | .gainRadical l c => radicalChange doForward s l c
  | .loseRadical l c => radicalChange (!doForward) s l c

/-- Mirrors the action loop of `ReactionRecipe.__apply`: actions run in
order and the first failure propagates to the caller.  (The batched
connectivity-cache reset/recompute carries no modelled state.) -/
def recipeApply (doForward : Bool) (actions : List Action) (s : Struct) :
    Except RecipeError Struct :=
  match actions with
  | [] => .ok s
  | a :: rest =>
    match applyActionStep doForward s a with
    | .ok s1 => recipeApply doForward rest s1
    | .error e => .error e

/-- Mirrors `ReactionRecipe.applyForward`. -/
def applyForward (actions : List Action) (s : Struct) : Except RecipeError Struct :=
  recipeApply true actions s

/-- Mirrors `ReactionRecipe.applyReverse`. -/
def applyReverse (actions : List Action) (s : Struct) : Except RecipeError Struct :=
  recipeApply false actions s

/-- Two structures that agree atom-for-atom and bond-for-bond (bond maps
compared by lookup, so the storage order of the bond list is immaterial):
the label-bookkeeping-free isomorphism relevant to recipe round trips. -/
def structEquiv (s1 s2 : Struct) : Prop :=
  s1.atoms = s2.atoms ∧ ∀ k, s1.bonds.lookup k = s2.bonds.lookup k

/-- Side conditions under which a single action can round trip at all: a
`FORM_BOND` must not overwrite an existing bond (its reverse would then
delete what was there) and a `BREAK_BOND` must break a single bond (its
reverse always forms a single bond).  `CHANGE_BOND` and the radical actions
need nothing extra. -/
def roundTripSafeB (a : Action) (s : Struct) : Bool :=
  match a with
  | .formBond l1 _ l2 =>
    match s.getLabeledAtom l1, s.getLabeledAtom l2 with
    | some i1, some i2 => !(s.hasBond i1 i2)
    | _, _ => true
  | .breakBond l1 _ l2 =>
    match s.getLabeledAtom l1, s.getLabeledAtom l2 with
    | some i1, some i2 => s.getBond i1 i2 == some 1
    | _, _ => true
  | _ => true

/-! ## Reaction enumeration (`KineticsGroups.generateReactions`)

The molecular-graph collaborators (full-isomorphism test, resonance-isomer
generation, subgraph matching, product-structure generation) are parameters:
`Mol`, `Map` and `TRct` are the collaborator's molecule, atom-mapping and
template-reactant types. -/

/-- A generated reaction: owned reactant/product structures plus an integer
path degeneracy (`Reaction` objects are created with degeneracy 1). -/
structure Reaction (Mol : Type) where
  reactants : List Mol
  products : List Mol
  degeneracy : Nat
deriving DecidableEq

/-- The duplicate test of the removal loop at the end of `generateReactions`:
the reactants are identical by construction, so only the products are
compared; the earlier reaction's products are expanded into their resonance
isomers and the later reaction's products must be isomorphic to one isomer
choice, directly or (for two products) crosswise. -/
def reactionProductsMatch {Mol : Type} (isIso : Mol → Mol → Bool)
    (resonance : Mol → List Mol) (r0 r : Reaction Mol) : Bool :=
  match r0.products.map resonance, r.products with
  | [ps0], [q0] => ps0.any (fun p => isIso q0 p)
  | [psA, psB], [qA, qB] =>
    psA.any fun pA => psB.any fun pB =>
      (isIso qA pA && isIso qB pB) || (isIso qA pB && isIso qB pA)
  | _, _ => false

/-- The inner `while index < len(rxnList)` scan of the duplicate-removal
loop: every later reaction matching `p` (the test against the reaction kept
at `index0`, whose resonance expansion was computed once up front) is removed
and the kept reaction's degeneracy is incremented by one. -/
def removeDupsInner {Mol : Type} (p : Reaction Mol → Bool) (r0 : Reaction Mol) :
    List (Reaction Mol) → Reaction Mol × List (Reaction Mol)
  | [] => (r0, [])
  | r :: rest =>
    if p r then removeDupsInner p { r0 with degeneracy := r0.degeneracy + 1 } rest
    else
      let q := removeDupsInner p r0 rest
      (q.1, r :: q.2)

theorem removeDupsInner_snd_length_le {Mol : Type} (p : Reaction Mol → Bool)
    (r0 : Reaction Mol) (l : List (Reaction Mol)) :
    (removeDupsInner p r0 l).2.length ≤ l.length := by
  induction l generalizing r0 with
  | nil => simp [removeDupsInner]
  | cons r rest ih =>
    by_cases h : p r = true
    · simp only [removeDupsInner, h, if_true]
      exact Nat.le_succ_of_le (ih _)
    · simp only [removeDupsInner, h, if_false, List.length_cons]
      exact Nat.succ_le_succ (ih _)

/-- The outer `while index0 < len(rxnList)` loop of duplicate removal in
`generateReactions`: each kept reaction absorbs all of its later duplicates
before the scan moves on. -/
def removeDuplicates {Mol : Type} (m : Reaction Mol → Reaction Mol → Bool) :
    List (Reaction Mol) → List (Reaction Mol)
  | [] => []
  | r0 :: rest =>
    let q := removeDupsInner (m r0) r0 rest
    q.1 :: removeDuplicates m q.2
termination_by l => l.length
decreasing_by
  exact Nat.lt_succ_of_le (removeDupsInner_snd_length_le _ _ _)

/-- ASCII lowercasing of a family label (`self.label.lower()`), written over
the character list so that it evaluates by `decide`. -/
def strLower (s : String) : String :=
  ⟨s.data.map Char.toLower⟩

/-- The hardcoded correction at the end of `generateReactions`: for the
family labeled `'unimolecular homolysis'` (the reverse of radical
recombination) the degeneracy of every reaction is divided by two (Python 2
integer division); every other family's list passes through untouched. -/
def homolysisCorrection {Mol : Type} (label : String) (rxns : List (Reaction Mol)) :
    List (Reaction Mol) :=
  if strLower label = "unimolecular homolysis" then
    rxns.map (fun r => { r with degeneracy := r.degeneracy / 2 })
  else rxns

/-- A reactant argument of `generateReactions`: one species given as the list
of its resonance isomers.  `id` models Python object identity of the list,
which the bimolecular branch compares with `reactants[0] is not reactants[1]`
to decide whether to also try the swapped template assignment. -/
structure ReactantList (Mol : Type) where
  id : Nat
  mols : List Mol

/-- The forward or reverse template of a family: the template reactant
patterns (matching and product generation consume them). -/
structure Template (TRct : Type) where
  reactants : List TRct

/-- A reaction family as `generateReactions` consumes it: its label, forward
template, optional reverse template, and the collaborator capabilities
(subgraph matching via `__matchReactantToTemplate`, product generation via
`__generateProductStructures`, reaction creation via `__createReaction`,
full-isomorphism testing and resonance-isomer generation). -/
structure Family (Mol Map TRct : Type) where
  label : String
  forwardTemplate : Template TRct
  reverseTemplate : Option (Template TRct)
  matchToTemplate : Mol → TRct → List Map
  genProductStructures : List Mol → List Map → Bool → Option (List Mol)
  createReaction : List Mol → List Mol → Bool → Option (Reaction Mol)
  isIsomorphic : Mol → Mol → Bool
  resonanceIsomers : Mol → List Mol

/-- The per-mapping body shared by the enumeration branches: for every pair
of subgraph matches of the given molecules onto the given template reactants,
generate product structures (skipping falsy results: `None` or an empty list)
and create the candidate reaction (skipping `None`, the no-net-change case). -/
def matchedCandidates {Mol Map TRct : Type} (fam : Family Mol Map TRct)
    (mols : List Mol) (t1 t2 : TRct) (a b : Mol) (forward : Bool) :
    List (Reaction Mol) :=
  (fam.matchToTemplate a t1).flatMap fun mapA =>
    (fam.matchToTemplate b t2).flatMap fun mapB =>
      match fam.genProductStructures mols [mapA, mapB] forward with
      | some prods =>
        if prods.isEmpty then []
        else
          match fam.createReaction mols prods forward with
          | some rxn => [rxn]
          | none => []
      | none => []

/-- The unimolecular branch body: one reactant matched against the single
template reactant. -/
def unimolecularCandidates {Mol Map TRct : Type} (fam : Family Mol Map TRct)
    (t1 : TRct) (molecule : Mol) (forward : Bool) : List (Reaction Mol) :=
  (fam.matchToTemplate molecule t1).flatMap fun map =>
    match fam.genProductStructures [molecule] [map] forward with
    | some prods =>
      if prods.isEmpty then []
      else
        match fam.createReaction [molecule] prods forward with
        | some rxn => [rxn]
        | none => []
    | none => []

/-- The bimolecular branch of `generateReactions`: for every pair of
resonance isomers, the A-to-first/B-to-second template assignment is always
tried, and the swapped assignment is additionally tried exactly when the two
reactant lists are not the same object. -/
def bimolecularCandidates {Mol Map TRct : Type} (fam : Family Mol Map TRct)
    (t1 t2 : TRct) (rA rB : ReactantList Mol) (forward : Bool) :
    List (Reaction Mol) :=
  rA.mols.flatMap fun a => rB.mols.flatMap fun b =>
    matchedCandidates fam [a, b] t1 t2 a b forward ++
      (if rA.id ≠ rB.id then matchedCandidates fam [a, b] t2 t1 a b forward else [])

/-- Template selection at the head of `generateReactions`: the forward
template when `forward`, otherwise the reverse template when the family has
one; a family that is its own reverse has none and the caller returns `[]`. -/
def chooseTemplate {Mol Map TRct : Type} (fam : Family Mol Map TRct)
    (forward : Bool) : Option (Template TRct) :=
  if forward then some fam.forwardTemplate else fam.reverseTemplate

/-- The candidate-enumeration stage of `generateReactions`: the unimolecular
branch when one reactant meets a one-reactant template, the bimolecular
branch when two reactants meet a two-reactant template, and the empty list
for any other shape. -/
def enumerateCandidates {Mol Map TRct : Type} (fam : Family Mol Map TRct)
    (t : Template TRct) (reactants : List (ReactantList Mol)) (forward : Bool) :
    List (Reaction Mol) :=
  match reactants, t.reactants with
  | [r0], [t1] => r0.mols.flatMap fun molecule =>
      unimolecularCandidates fam t1 molecule forward
  | [rA, rB], [t1, t2] => bimolecularCandidates fam t1 t2 rA rB forward
  | _, _ => []

/-- Mirrors `KineticsGroups.generateReactions`: select the template (an
immediate empty result when querying the reverse of a family that is its own
reverse), enumerate candidates for the unimolecular or bimolecular shape
(anything else leaves the list empty), merge duplicates, and apply the
homolysis degeneracy correction. -/
def generateReactions {Mol Map TRct : Type} (fam : Family Mol Map TRct)
    (reactants : List (ReactantList Mol)) (forward : Bool) : List (Reaction Mol) :=
  match chooseTemplate fam forward with
  | none => []
  | some t =>
    homolysisCorrection fam.label
      (removeDuplicates (reactionProductsMatch fam.isIsomorphic fam.resonanceIsomers)
        (enumerateCandidates fam t reactants forward))

/-! ## Product-count check of `KineticsGroups.applyRecipe` -/

/-- Outcome of the product-count check after splitting the product structure
into connected components. -/
inductive ProductCountOutcome where
  | ok
  | noReaction
  | raiseError
deriving DecidableEq

/-- The check of `applyRecipe` after the split: the component count must
equal the template's declared product count; on disagreement the only escape
is the documented ring-opening case of the reverse radical-recombination
(homolysis) template — one reactant structure, one split product, and both
atoms labeled `*1` and `*2` in cycles of the reactant — which quietly
returns no reaction; everything else raises.  `label` is the family label
lowercased; the two cycle flags are the collaborator's
`isVertexInCycle` verdicts on the labeled atoms. -/
def applyRecipeProductCheck (label : String) (forward : Bool)
    (numReactantStructures numProductStructures templateProductCount : Nat)
    (star1InCycle star2InCycle : Bool) : ProductCountOutcome :=
  if templateProductCount ≠ numProductStructures then
    if label = "r_recombination" ∧ forward = false ∧
        numProductStructures = 1 ∧ numReactantStructures = 1 then
      if star1InCycle ∧ star2InCycle then ProductCountOutcome.noReaction
      else ProductCountOutcome.raiseError
    else ProductCountOutcome.raiseError
  else ProductCountOutcome.ok

/-! ## Kinetics lookup (`KineticsGroups.getKinetics`) -/

/-- A rate-rule library entry: the stored index used for tie-breaking and the
kinetics payload of type `M`. -/
structure KEntry (M : Type) where
  index : Int
  model : M

/-- Runtime failures of the kinetics lookup: the `NameError` a Python
reference to an undefined name raises, and `UndeterminableKineticsError`. -/
inductive PyError where
  | nameError
  | undeterminableKinetics
deriving DecidableEq

/-- Modelled from the spec: climbing from a matched node to the root
collecting every ancestor, via the parent map of the family's tree (the
`Database.tree` structure lives in the `base` module, which is not part of
the sources here).  `fuel` bounds the climb. -/
def ancestorChain (parent : Nat → Option Nat) : Nat → Nat → List Nat
  | 0, n => [n]
  | fuel + 1, n =>
    n ::
      (match parent n with
       | none => []
       | some q => ancestorChain parent fuel q)

/-- Modelled from the spec: the cartesian product across the reactants'
ancestor chains (`getAllCombinations` lives in the `base` module, which is
not part of the sources here): starting from the single empty combination,
each item list multiplies the accumulated combinations. -/
def getAllCombinations {α : Type} (itemLists : List (List α)) : List (List α) :=
  itemLists.foldl (fun combos items => combos.flatMap (fun c => items.map (fun i => c ++ [i]))) [[]]

/-- The probe loop of `getKinetics`: each node-tuple is looked up in the
rate-data store and hits are collected — but the next statement of the loop
body reads the name `symmetric_tree`, which is defined nowhere in the module
(the similarly named local of `getReactionTemplate` is `symmetricTree`), so
the first iteration raises a `NameError`. -/
def getKineticsLoop {M : Type} (getData : List Nat → Option (KEntry M)) :
    List (List Nat) → List (KEntry M) → Except PyError (List (KEntry M))
  | [], acc => .ok acc
  | item :: _, acc =>
    let _kinetics :=
      match getData item with
      | some d => acc ++ [d]
      | none => acc
    .error .nameError

/-- Mirrors `KineticsGroups.getKinetics` given the matched template nodes:
climb the tree collecting ancestor chains, form all node-tuple combinations,
probe the store for each, fail with `UndeterminableKineticsError` when
nothing was collected, and otherwise return the entry with the numerically
highest stored index. -/
def getKinetics {M : Type} (parent : Nat → Option Nat) (fuel : Nat)
    (getData : List Nat → Option (KEntry M)) (template : List Nat) :
    Except PyError M :=
  let nodeLists := template.map (fun t => ancestorChain parent fuel t)
  let items := getAllCombinations nodeLists
  match getKineticsLoop getData items [] with
  | .error e => .error e
  | .ok kinetics =>
    if kinetics.isEmpty then .error .undeterminableKinetics
    else
      match (kinetics.map (fun k => k.index)).max? with
      | none => .error .undeterminableKinetics
      | some maxIndex =>
        match kinetics.filter (fun k => decide (k.index = maxIndex)) with
        | [] => .error .undeterminableKinetics
        | k :: _ => .ok k.model

/-! ## Group-additivity fitting (`KineticsGroups.fitGroupValues`)

The numeric least-squares solve and the Student-t uncertainty conversion are
floating-point collaborator work and are abstracted into a `solve` parameter
returning the coefficient and confidence-interval vectors; the claims under
verification concern only which tree nodes end up with data and which end up
null.  `Database.ancestors`/`Database.descendants` live in the `base` module
(not part of the sources here) and are parameters, modelled from the spec as
the walk from a node to its root and the subtree below a node. -/

/-- Insert into an ascending list, keeping it sorted. -/
def insertSorted (x : Nat) : List Nat → List Nat
  | [] => [x]
  | y :: ys => if x ≤ y then x :: y :: ys else y :: insertSorted x ys

/-- Ascending insertion sort, modelling the `sort(key=lambda x: x.index)`
ordering of the group list (entries here are their indices). -/
def sortByIndex (l : List Nat) : List Nat :=
  l.foldr insertSorted []

/-- The deduplicated, index-sorted list of groups that can receive fitted
parameters: every template group that is not a top node, together with its
ancestors short of the root. -/
def fitGroupList (top : List Nat) (ancestors : Nat → List Nat)
    (templates : List (List Nat)) : List Nat :=
  sortByIndex ((templates.flatMap fun temp => temp.flatMap fun group =>
      if group ∈ top then [] else group :: (ancestors group).dropLast).dedup)

/-- The least-squares design matrix built at each temperature: one row per
combination of each template group with its ancestors, holding the 0/1
membership of every fittable group plus the trailing intercept column. -/
def fitMatrix (ancestors : Nat → List Nat) (groupList : List Nat)
    (templates : List (List Nat)) : List (List Int) :=
  templates.flatMap fun temp =>
    (getAllCombinations (temp.map fun g => g :: ancestors g)).map fun groups =>
      (groupList.map fun g => if g ∈ groups then (1 : Int) else 0) ++ [1]

/-- The observation vector at temperature index `t`: one copy of the
template's (log) rate datum per design-matrix row. -/
def fitVector (ancestors : Nat → List Nat) (templates : List (List Nat))
    (kdata : Nat → Nat → Int) (t : Nat) : List Int :=
  templates.enum.flatMap fun p =>
    (getAllCombinations (p.2.map fun g => g :: ancestors g)).map fun _ => kdata p.1 t

/-- Mirrors `KineticsGroups.fitGroupValues`.  The result is `none` for the
warn-and-return exit taken when the design matrix is empty, and otherwise
the per-entry data finally stored: `some values` (pairs of fitted value and
uncertainty per temperature) for the first top node and for every group in
the fit, and `none` — an explicit null, never zero — for every other entry.
With an empty temperature list the loop never runs, so every entry keeps its
initial (empty, non-null) value list and is assigned empty data. -/
def fitGroupValues (descendants ancestors : Nat → List Nat) (top : List Nat)
    (solve : List (List Int) → List Int → List Int × List Int)
    (templates : List (List Nat)) (Ts : List Int) (kdata : Nat → Nat → Int) :
    Option (List (Nat × Option (List (Int × Int)))) :=
  let entries := top ++ top.flatMap descendants
  let groupList := fitGroupList top ancestors templates
  match Ts with
  | [] => some (entries.map fun e => (e, some []))
  | _ :: _ =>
    let A := fitMatrix ancestors groupList templates
    if A.isEmpty then none
    else
      some (entries.map fun e =>
        (e,
          if some e = top.head? then
            some (Ts.enum.map fun p =>
              let xc := solve A (fitVector ancestors templates kdata p.1)
              (xc.1.getLastD 0, xc.2.getLastD 0))
          else if e ∈ groupList then
            some (Ts.enum.map fun p =>
              let xc := solve A (fitVector ancestors templates kdata p.1)
              (xc.1.getD (groupList.indexOf e) 0, xc.2.getD (groupList.indexOf e) 0))
          else none))

/-! ## Concrete fixtures used to witness the theorems below -/

/-- A two-atom structure with the labels `*1` and `*2` and no bonds. -/
def exStruct2 : Struct :=
  ⟨[⟨"*1", 0⟩, ⟨"*2", 0⟩], []⟩

/-- A recipe that forms and then breaks the same bond: its forward
application succeeds (and is a no-op), but its reverse raises. -/
def exRecipeFB : List Action :=
  [.formBond "*1" 1 "*2", .breakBond "*1" 1 "*2"]

/-- A three-atom structure: `*1` (one radical) single-bonded to `*2`, which
is double-bonded to an unlabeled atom with two radicals. -/
def exStruct3 : Struct :=
  ⟨[⟨"*1", 1⟩, ⟨"*2", 0⟩, ⟨"", 2⟩], [((0, 1), 1), ((1, 2), 2)]⟩

/-- A tiny `intra_h_migration`-style family that is its own reverse (it
carries no reverse template). -/
def famNoRev : Family Nat Unit Unit where
  label := "intra_h_migration"
  forwardTemplate := ⟨[()]⟩
  reverseTemplate := none
  matchToTemplate := fun _ _ => [()]
  genProductStructures := fun ms _ _ => some ms
  createReaction := fun rs ps _ => some ⟨rs, ps, 1⟩
  isIsomorphic := fun a b => a == b
  resonanceIsomers := fun a => [a]

/-- A tiny family carrying the homolysis label whose degeneracies are halved. -/
def famHomolysis : Family Nat Unit Unit where
  label := "Unimolecular Homolysis"
  forwardTemplate := ⟨[()]⟩
  reverseTemplate := none
  matchToTemplate := fun _ _ => []
  genProductStructures := fun _ _ _ => none
  createReaction := fun _ _ _ => none
  isIsomorphic := fun a b => a == b
  resonanceIsomers := fun a => [a]

/-! ## Supporting lemmas -/

theorem ancestorChain_ne_nil (parent : Nat → Option Nat) (fuel n : Nat) :
    ancestorChain parent fuel n ≠ [] := by
  cases fuel <;> simp [ancestorChain]

theorem getAllCombinations_foldl_ne_nil {α : Type} (ls : List (List α)) :
    ∀ acc : List (List α), acc ≠ [] → (∀ l ∈ ls, l ≠ []) →
      List.foldl (fun combos items => combos.flatMap fun c => items.map fun i => c ++ [i])
        acc ls ≠ [] := by
  induction ls with
  | nil => intro acc ha _; simpa using ha
  | cons hd tl ih =>
    intro acc ha hl
    simp only [List.foldl_cons]
    apply ih
    · obtain ⟨a, as, rfl⟩ := List.exists_cons_of_ne_nil ha
      obtain ⟨x, xs, rfl⟩ := List.exists_cons_of_ne_nil (hl hd (by simp))
      simp
    · intro l hl2
      exact hl l (List.mem_cons_of_mem _ hl2)

theorem getAllCombinations_ne_nil {α : Type} (ls : List (List α))
    (h : ∀ l ∈ ls, l ≠ []) : getAllCombinations ls ≠ [] := by
  unfold getAllCombinations
  exact getAllCombinations_foldl_ne_nil ls [[]] (by simp) h

theorem removeDupsInner_fst_products {Mol : Type} (p : Reaction Mol → Bool)
    (r0 : Reaction Mol) (l : List (Reaction Mol)) :
    (removeDupsInner p r0 l).1.products = r0.products ∧
      (removeDupsInner p r0 l).1.reactants = r0.reactants := by
  induction l generalizing r0 with
  | nil => simp [removeDupsInner]
  | cons r rest ih =>
    by_cases h : p r = true <;> simp [removeDupsInner, h]
    · exact ih _
    · exact ih _

theorem removeDupsInner_deg {Mol : Type} (p : Reaction Mol → Bool)
    (r0 : Reaction Mol) (l : List (Reaction Mol)) :
    (removeDupsInner p r0 l).1.degeneracy + (removeDupsInner p r0 l).2.length
      = r0.degeneracy + l.length := by
  induction l generalizing r0 with
  | nil => simp [removeDupsInner]
  | cons r rest ih =>
    by_cases h : p r = true <;> simp [removeDupsInner, h]
    · have h1 := ih { r0 with degeneracy := r0.degeneracy + 1 }
      simp at h1
      omega
    · have h1 := ih r0
      omega

theorem removeDupsInner_snd_sublist {Mol : Type} (p : Reaction Mol → Bool)
    (r0 : Reaction Mol) (l : List (Reaction Mol)) :
    List.Sublist (removeDupsInner p r0 l).2 l := by
  induction l generalizing r0 with
  | nil => simp [removeDupsInner]
  | cons r rest ih =>
    by_cases h : p r = true <;> simp [removeDupsInner, h]
    · exact (ih _).trans (List.sublist_cons_self r rest)
    · exact ih r0

theorem removeDupsInner_snd_nomatch {Mol : Type} (p : Reaction Mol → Bool)
    (r0 : Reaction Mol) (l : List (Reaction Mol)) :
    ∀ r ∈ (removeDupsInner p r0 l).2, p r = false := by
  induction l generalizing r0 with
  | nil => simp [removeDupsInner]
  | cons r rest ih =>
    by_cases h : p r = true <;> simp only [removeDupsInner, h, if_true, if_false]
    · exact ih _
    · intro x hx
      rcases List.mem_cons.mp hx with rfl | hx2
      · simpa using h
      · exact ih r0 x hx2

theorem removeDuplicates_map_sublist {Mol : Type} (m : Reaction Mol → Reaction Mol → Bool)
    (l : List (Reaction Mol)) :
    List.Sublist
      ((removeDuplicates m l).map (fun r => (r.reactants, r.products)))
      (l.map (fun r => (r.reactants, r.products))) := by
  induction l using removeDuplicates.induct m with
  | case1 => simp [removeDuplicates]
  | case2 r0 rest q ih =>
    rw [removeDuplicates]
    simp only [List.map_cons]
    have hfst := removeDupsInner_fst_products (m r0) r0 rest
    have hsnd := (removeDupsInner_snd_sublist (m r0) r0 rest).map
      (fun r => (r.reactants, r.products))
    rw [hfst.1, hfst.2]
    exact (ih.trans hsnd).cons₂ _

theorem removeDuplicates_mem_products {Mol : Type} (m : Reaction Mol → Reaction Mol → Bool)
    (l : List (Reaction Mol)) (b : Reaction Mol) (hb : b ∈ removeDuplicates m l) :
    ∃ c ∈ l, c.products = b.products := by
  have h := (removeDuplicates_map_sublist m l).subset
    (List.mem_map_of_mem (fun r => (r.reactants, r.products)) hb)
  obtain ⟨c, hc, hce⟩ := List.mem_map.mp h
  exact ⟨c, hc, congrArg Prod.snd hce⟩

theorem removeDuplicates_pairwise {Mol : Type} (m : Reaction Mol → Reaction Mol → Bool)
    (hm : ∀ a a' b b' : Reaction Mol, a.products = a'.products → b.products = b'.products →
      m a b = m a' b') (l : List (Reaction Mol)) :
    List.Pairwise (fun a b => m a b = false) (removeDuplicates m l) := by
  induction l using removeDuplicates.induct m with
  | case1 => simp [removeDuplicates]
  | case2 r0 rest q ih =>
    rw [removeDuplicates]
    refine List.Pairwise.cons ?_ ih
    intro b hb
    obtain ⟨c, hc, hcb⟩ := removeDuplicates_mem_products m _ b hb
    have hfst := removeDupsInner_fst_products (m r0) r0 rest
    have : m (removeDupsInner (m r0) r0 rest).1 b = m r0 c := hm _ _ _ _ hfst.1 hcb.symm
    rw [this]
    exact removeDupsInner_snd_nomatch (m r0) r0 rest c hc

theorem removeDuplicates_sum_degeneracy {Mol : Type} (m : Reaction Mol → Reaction Mol → Bool)
    (l : List (Reaction Mol)) (h1 : ∀ r ∈ l, r.degeneracy = 1) :
    ((removeDuplicates m l).map (fun r => r.degeneracy)).sum = l.length := by
  induction l using removeDuplicates.induct m with
  | case1 => simp [removeDuplicates]
  | case2 r0 rest q ih =>
    rw [removeDuplicates]
    simp only [List.map_cons, List.sum_cons]
    have hdeg := removeDupsInner_deg (m r0) r0 rest
    have hsub := (removeDupsInner_snd_sublist (m r0) r0 rest).subset
    have hrec : ((removeDuplicates m ((removeDupsInner (m r0) r0 rest).2)).map
        (fun r => r.degeneracy)).sum = ((removeDupsInner (m r0) r0 rest).2).length :=
      ih (fun r hr => h1 r (List.mem_cons_of_mem r0 (hsub hr)))
    have h0 : r0.degeneracy = 1 := h1 r0 (List.mem_cons_self r0 rest)
    have hlen : (removeDupsInner (m r0) r0 rest).2.length ≤ rest.length :=
      removeDupsInner_snd_length_le (m r0) r0 rest
    simp only [List.length_cons]
    omega

theorem reactionProductsMatch_congr {Mol : Type} (isIso : Mol → Mol → Bool)
    (resonance : Mol → List Mol) (a a' b b' : Reaction Mol)
    (ha : a.products = a'.products) (hb : b.products = b'.products) :
    reactionProductsMatch isIso resonance a b = reactionProductsMatch isIso resonance a' b' := by
  unfold reactionProductsMatch
  rw [ha, hb]

/-! ## Claim theorems -/

/-- C1: duplicate removal in `generateReactions` leaves no two reactions
that the duplicate test identifies (the kept list is pairwise non-matching),
keeps each candidate at most once (the kept reactants/products form a
sublist of the enumerated ones), and merges every removed duplicate by
incrementing the kept reaction's degeneracy by one — so when every candidate
enters with degeneracy 1, the total degeneracy equals the original candidate
count. -/
theorem generateReactions_merges_duplicates {Mol : Type} (isIso : Mol → Mol → Bool)
    (resonance : Mol → List Mol) (l : List (Reaction Mol)) :
    List.Pairwise (fun a b => reactionProductsMatch isIso resonance a b = false)
      (removeDuplicates (reactionProductsMatch isIso resonance) l)
    ∧ List.Sublist
        ((removeDuplicates (reactionProductsMatch isIso resonance) l).map
          (fun r => (r.reactants, r.products)))
        (l.map (fun r => (r.reactants, r.products)))
    ∧ ((∀ r ∈ l, r.degeneracy = 1) →
        ((removeDuplicates (reactionProductsMatch isIso resonance) l).map
          (fun r => r.degeneracy)).sum = l.length) :=
  ⟨removeDuplicates_pairwise (reactionProductsMatch isIso resonance)
      (fun a a' b b' ha hb => reactionProductsMatch_congr isIso resonance a a' b b' ha hb) l,
    removeDuplicates_map_sublist (reactionProductsMatch isIso resonance) l,
    removeDuplicates_sum_degeneracy (reactionProductsMatch isIso resonance) l⟩

/-- Witness for C1: five degeneracy-1 candidates with duplicated products
merge into reactions of total degeneracy five. -/
theorem generateReactions_merges_duplicates_witness :
    ((removeDuplicates (reactionProductsMatch (fun a b : Nat => a == b) (fun a => [a]))
        [⟨[0], [1], 1⟩, ⟨[0], [2], 1⟩, ⟨[0], [1], 1⟩, ⟨[0], [1], 1⟩, ⟨[0], [2], 1⟩]).map
      (fun r => r.degeneracy)).sum = 5 :=
  (generateReactions_merges_duplicates (fun a b : Nat => a == b) (fun a => [a])
    [⟨[0], [1], 1⟩, ⟨[0], [2], 1⟩, ⟨[0], [1], 1⟩, ⟨[0], [1], 1⟩, ⟨[0], [2], 1⟩]).2.2
    (by decide)

/-- C3: `applyRecipe` requires the post-split component count to equal the
template's declared product count (outcome `ok`); on disagreement it raises,
with exactly one exception — reverse radical recombination with one reactant
structure, one split product, and both `*1` and `*2` in cycles — which
returns the explicit no-reaction outcome instead. -/
theorem applyRecipe_product_count_spec (label : String) (forward : Bool)
    (nR nP nT : Nat) (c1 c2 : Bool) :
    (applyRecipeProductCheck label forward nR nP nT c1 c2 = ProductCountOutcome.ok ↔
      nT = nP)
    ∧ (applyRecipeProductCheck label forward nR nP nT c1 c2 = ProductCountOutcome.noReaction ↔
      (nT ≠ nP ∧ label = "r_recombination" ∧ forward = false ∧ nP = 1 ∧ nR = 1 ∧
        c1 = true ∧ c2 = true))
    ∧ (applyRecipeProductCheck label forward nR nP nT c1 c2 = ProductCountOutcome.raiseError ↔
      (nT ≠ nP ∧ ¬(label = "r_recombination" ∧ forward = false ∧ nP = 1 ∧ nR = 1 ∧
        c1 = true ∧ c2 = true))) := by
  unfold applyRecipeProductCheck
  split_ifs with h1 h2 h3 <;> simp_all

/-- C10: querying the reverse direction of a family that is its own reverse
(no reverse template) returns the empty list immediately. -/
theorem generateReactions_reverse_of_self_reverse {Mol Map TRct : Type}
    (fam : Family Mol Map TRct) (reactants : List (ReactantList Mol))
    (h : fam.reverseTemplate = none) :
    generateReactions fam reactants false = [] := by
  unfold generateReactions chooseTemplate
  simp [h]

/-- Witness for C10 at a concrete family and reactant pool. -/
theorem generateReactions_reverse_of_self_reverse_witness :
    generateReactions famNoRev [⟨0, [5]⟩] false = [] :=
  generateReactions_reverse_of_self_reverse famNoRev [⟨0, [5]⟩] rfl

theorem getTwoLabeledAtoms_error (s : Struct) (l1 l2 : String)
    (h : s.getLabeledAtom l1 = none ∨ s.getLabeledAtom l2 = none ∨
      s.getLabeledAtom l1 = s.getLabeledAtom l2) :
    getTwoLabeledAtoms s l1 l2 = .error .invalidAction := by
  unfold getTwoLabeledAtoms
  rcases h1 : s.getLabeledAtom l1 with _ | i1 <;>
    rcases h2 : s.getLabeledAtom l2 with _ | i2 <;> simp_all

theorem getTwoLabeledAtoms_ok (s : Struct) (l1 l2 : String) (i1 i2 : Nat)
    (h1 : s.getLabeledAtom l1 = some i1) (h2 : s.getLabeledAtom l2 = some i2)
    (hne : i1 ≠ i2) :
    getTwoLabeledAtoms s l1 l2 = .ok (i1, i2) := by
  unfold getTwoLabeledAtoms
  rw [h1, h2]
  simp [hne]

/-- C4: the `InvalidActionError` conditions of recipe application — a bond
action whose operand labels resolve to no atom or to the same atom, a bond
removal (`BREAK_BOND` forward or `FORM_BOND` in reverse) on an unbonded
pair, and a radical action whose label resolves to no atom — each produce
`invalidAction`, and any failing action inside a recipe propagates its error
to the caller unchanged. -/
theorem recipe_invalidAction_spec (doForward : Bool) (s : Struct) :
    (∀ (l1 l2 : String) (n : Int) (a : Action),
      (a = Action.changeBond l1 n l2 ∨ a = Action.formBond l1 n l2 ∨
        a = Action.breakBond l1 n l2) →
      (s.getLabeledAtom l1 = none ∨ s.getLabeledAtom l2 = none ∨
        s.getLabeledAtom l1 = s.getLabeledAtom l2) →
      applyActionStep doForward s a = .error .invalidAction)
    ∧ (∀ (l1 l2 : String) (n : Int) (a : Action) (i1 i2 : Nat),
      ((a = Action.breakBond l1 n l2 ∧ doForward = true) ∨
        (a = Action.formBond l1 n l2 ∧ doForward = false)) →
      s.getLabeledAtom l1 = some i1 → s.getLabeledAtom l2 = some i2 → i1 ≠ i2 →
      s.hasBond i1 i2 = false →
      applyActionStep doForward s a = .error .invalidAction)
    ∧ (∀ (lab : String) (c : Int) (a : Action),
      (a = Action.gainRadical lab c ∨ a = Action.loseRadical lab c) →
      s.getLabeledAtom lab = none →
      applyActionStep doForward s a = .error .invalidAction)
    ∧ (∀ (pre post : List Action) (a : Action) (s1 : Struct) (e : RecipeError),
      recipeApply doForward pre s = .ok s1 →
      applyActionStep doForward s1 a = .error e →
      recipeApply doForward (pre ++ a :: post) s = .error e) := by
  refine ⟨?_, ?_, ?_, ?_⟩
  · intro l1 l2 n a ha hbad
    rcases ha with rfl | rfl | rfl <;>
      simp only [applyActionStep, getTwoLabeledAtoms_error s l1 l2 hbad]
  · intro l1 l2 n a i1 i2 ha h1 h2 hne hbond
    rcases ha with ⟨rfl, rfl⟩ | ⟨rfl, rfl⟩ <;>
      simp [applyActionStep, getTwoLabeledAtoms_ok s l1 l2 i1 i2 h1 h2 hne,
        bondRemove, hbond]
  · intro lab c a ha hnone
    rcases ha with rfl | rfl <;> simp only [applyActionStep, radicalChange, hnone]
  · intro pre
    induction pre generalizing s with
    | nil =>
      intro post a s1 e hpre hstep
      simp only [recipeApply] at hpre
      cases hpre
      simp [recipeApply, hstep]
    | cons b pre ih =>
      intro post a s1 e hpre hstep
      simp only [recipeApply] at hpre ⊢
      rcases hb : applyActionStep doForward s b with eb | sb <;> rw [hb] at hpre
      · exact absurd hpre (by simp)
      · exact ih sb post a s1 e hpre hstep

/-- Witness for C4 at a concrete structure: a `CHANGE_BOND` whose second
label is missing raises `invalidAction`. -/
theorem recipe_invalidAction_spec_witness :
    applyActionStep true exStruct3 (Action.changeBond "*1" 1 "*9") =
      .error .invalidAction :=
  (recipe_invalidAction_spec true exStruct3).1 "*1" "*9" 1
    (Action.changeBond "*1" 1 "*9") (Or.inl rfl) (by decide)

theorem modifyAtom_length (f : Atom → Atom) (i : Nat) (l : List Atom) :
    (modifyAtom f i l).length = l.length := by
  induction l generalizing i with
  | nil => simp [modifyAtom]
  | cons a as ih => cases i <;> simp [modifyAtom, ih]

theorem modifyAtom_get? (f : Atom → Atom) (i j : Nat) (l : List Atom) :
    (modifyAtom f i l).get? j = if j = i then (l.get? j).map f else l.get? j := by
  induction l generalizing i j with
  | nil => simp [modifyAtom]
  | cons a as ih =>
    cases i with
    | zero =>
      cases j with
      | zero => simp [modifyAtom]
      | succ j => simp [modifyAtom]
    | succ i =>
      cases j with
      | zero => simp [modifyAtom]
      | succ j => simpa [modifyAtom] using ih i j

theorem applyActionStep_atoms {doForward : Bool} {s : Struct} {a : Action}
    {s1 : Struct} (h : applyActionStep doForward s a = .ok s1) :
    s1.atoms.length = s.atoms.length ∧
      ∀ i, (s1.atoms.get? i).map Atom.label = (s.atoms.get? i).map Atom.label := by
  have hrad : ∀ (g : Bool) (lab : String) (c : Int),
      radicalChange g s lab c = .ok s1 →
      s1.atoms.length = s.atoms.length ∧
        ∀ i, (s1.atoms.get? i).map Atom.label = (s.atoms.get? i).map Atom.label := by
    intro g lab c hr
    unfold radicalChange at hr
    rcases hl : s.getLabeledAtom lab with _ | i0 <;> simp only [hl] at hr
    · exact absurd hr (by simp)
    · rcases hga : s.atoms.get? i0 with _ | a0 <;> simp only [hga] at hr
      · exact absurd hr (by simp)
      · rcases hrs : radicalSteps g c.toNat a0.radicals with e | rr <;>
          simp only [hrs] at hr
        · exact absurd hr (by simp)
        · cases hr
          refine ⟨modifyAtom_length _ i0 s.atoms, fun i => ?_⟩
          show ((modifyAtom (fun a0 => { a0 with radicals := rr }) i0 s.atoms).get? i).map
            Atom.label = (s.atoms.get? i).map Atom.label
          rw [modifyAtom_get?]
          split
          · cases s.atoms.get? i <;> rfl
          · rfl
  cases a with
  | changeBond l1 n l2 =>
    simp only [applyActionStep] at h
    rcases hg : getTwoLabeledAtoms s l1 l2 with e | p <;> simp only [hg] at h
    · exact absurd h (by simp)
    · obtain ⟨i1, i2⟩ := p
      unfold bondChange at h
      rcases hb : s.getBond i1 i2 with _ | o <;> simp only [hb] at h
      · exact absurd h (by simp)
      · split at h <;> split at h <;>
          first
            | (cases h; exact ⟨rfl, fun _ => rfl⟩)
            | exact absurd h (by simp)
  | formBond l1 n l2 =>
    simp only [applyActionStep] at h
    rcases hg : getTwoLabeledAtoms s l1 l2 with e | p <;> simp only [hg] at h
    · exact absurd h (by simp)
    · obtain ⟨i1, i2⟩ := p
      cases doForward with
      | true =>
        simp only [bondAdd, if_true] at h
        cases h
        exact ⟨rfl, fun _ => rfl⟩
      | false =>
        simp only [Bool.false_eq_true, if_false, bondRemove] at h
        split at h
        · cases h
          exact ⟨rfl, fun _ => rfl⟩
        · exact absurd h (by simp)
  | breakBond l1 n l2 =>
    simp only [applyActionStep] at h
    rcases hg : getTwoLabeledAtoms s l1 l2 with e | p <;> simp only [hg] at h
    · exact absurd h (by simp)
    · obtain ⟨i1, i2⟩ := p
      cases doForward with
      | true =>
        simp only [bondRemove, if_true] at h
        split at h
        · cases h
          exact ⟨rfl, fun _ => rfl⟩
        · exact absurd h (by simp)
      | false =>
        simp only [Bool.false_eq_true, if_false, bondAdd] at h
        cases h
        exact ⟨rfl, fun _ => rfl⟩
  | gainRadical lab c => exact hrad doForward lab c h
  | loseRadical lab c => exact hrad (!doForward) lab c h

/-- C5: a successful recipe application never adds or removes an atom — the
atom list keeps its length and every position keeps its atom (same label;
only radical counts, bonds and connectivity caches may differ). -/
theorem recipe_preserves_atoms (doForward : Bool) (actions : List Action)
    (s s1 : Struct) (h : recipeApply doForward actions s = .ok s1) :
    s1.atoms.length = s.atoms.length ∧
      ∀ i, (s1.atoms.get? i).map Atom.label = (s.atoms.get? i).map Atom.label := by
  induction actions generalizing s with
  | nil =>
    simp only [recipeApply] at h
    cases h
    exact ⟨rfl, fun _ => rfl⟩
  | cons a rest ih =>
    simp only [recipeApply] at h
    rcases hs : applyActionStep doForward s a with e | sm <;> rw [hs] at h
    · exact absurd h (by simp)
    · have h1 := applyActionStep_atoms hs
      have h2 := ih sm h
      exact ⟨h2.1.trans h1.1, fun i => (h2.2 i).trans (h1.2 i)⟩

/-- Witness for C5: gaining a radical at `*1` of the three-atom fixture
keeps the atom count and the atom at position 0. -/
theorem recipe_preserves_atoms_witness :
    (Struct.mk [⟨"*1", 2⟩, ⟨"*2", 0⟩, ⟨"", 2⟩] [((0, 1), 1), ((1, 2), 2)]).atoms.length
        = exStruct3.atoms.length
      ∧ ((Struct.mk [⟨"*1", 2⟩, ⟨"*2", 0⟩, ⟨"", 2⟩]
            [((0, 1), 1), ((1, 2), 2)]).atoms.get? 0).map Atom.label
        = (exStruct3.atoms.get? 0).map Atom.label := by
  have h := recipe_preserves_atoms true [.gainRadical "*1" 1] exStruct3
    (Struct.mk [⟨"*1", 2⟩, ⟨"*2", 0⟩, ⟨"", 2⟩] [((0, 1), 1), ((1, 2), 2)]) (by decide)
  exact ⟨h.1, h.2 0⟩

/-- C6 (divergence): every call of `getKinetics` raises a `NameError` on the
first probed node-tuple — the loop body reads the undefined name
`symmetric_tree` — so the documented protocol (probe every tuple, return
the highest-index hit, raise `UndeterminableKineticsError` when there is
none) is unreachable. -/
theorem getKinetics_raises_nameError {M : Type} (parent : Nat → Option Nat)
    (fuel : Nat) (getData : List Nat → Option (KEntry M)) (template : List Nat) :
    getKinetics parent fuel getData template = .error .nameError := by
  have h : ∀ l ∈ template.map fun t => ancestorChain parent fuel t, l ≠ [] := by
    intro l hl
    obtain ⟨t, _, rfl⟩ := List.mem_map.mp hl
    exact ancestorChain_ne_nil parent fuel t
  have h2 := getAllCombinations_ne_nil _ h
  unfold getKinetics
  rcases hi : getAllCombinations (template.map fun t => ancestorChain parent fuel t) with
    _ | ⟨x, xs⟩
  · exact absurd hi h2
  · simp [hi, getKineticsLoop]

/-- C7: a candidate appears in the bimolecular enumeration exactly when it
arises from the direct template assignment, or from the swapped assignment
provided the two reactant lists are not the same object; with identical
reactant lists only the direct assignment is enumerated. -/
theorem generateReactions_swap_iff_not_identical {Mol Map TRct : Type}
    (fam : Family Mol Map TRct) (t1 t2 : TRct) (rA rB : ReactantList Mol)
    (forward : Bool) (r : Reaction Mol) :
    r ∈ bimolecularCandidates fam t1 t2 rA rB forward ↔
      ((∃ a ∈ rA.mols, ∃ b ∈ rB.mols, r ∈ matchedCandidates fam [a, b] t1 t2 a b forward)
        ∨ (rA.id ≠ rB.id ∧
           ∃ a ∈ rA.mols, ∃ b ∈ rB.mols, r ∈ matchedCandidates fam [a, b] t2 t1 a b forward)) := by
  by_cases h : rA.id = rB.id <;>
    simp [bimolecularCandidates, List.mem_flatMap, List.mem_append, h, and_or_left, exists_or]

/-- C8: after duplicate removal, the family labeled `unimolecular homolysis`
— and no other — has every reaction's degeneracy halved; `generateReactions`
applies exactly this correction to the deduplicated list. -/
theorem generateReactions_homolysis_halving {Mol Map TRct : Type}
    (fam : Family Mol Map TRct) (reactants : List (ReactantList Mol))
    (forward : Bool) (t : Template TRct) (l : List (Reaction Mol)) :
    (strLower fam.label = "unimolecular homolysis" →
      homolysisCorrection fam.label l = l.map fun r => { r with degeneracy := r.degeneracy / 2 })
    ∧ (strLower fam.label ≠ "unimolecular homolysis" → homolysisCorrection fam.label l = l)
    ∧ (chooseTemplate fam forward = some t →
      generateReactions fam reactants forward =
        homolysisCorrection fam.label
          (removeDuplicates (reactionProductsMatch fam.isIsomorphic fam.resonanceIsomers)
            (enumerateCandidates fam t reactants forward))) := by
  refine ⟨fun h => ?_, fun h => ?_, fun h => ?_⟩
  · simp [homolysisCorrection, h]
  · simp [homolysisCorrection, h]
  · unfold generateReactions
    rw [h]

/-- Witness for C8: a degeneracy-4 reaction of the homolysis family is
halved to 2, and a differently labeled family's list passes through. -/
theorem generateReactions_homolysis_halving_witness :
    homolysisCorrection famHomolysis.label [(⟨[0], [1, 2], 4⟩ : Reaction Nat)] =
        [(⟨[0], [1, 2], 2⟩ : Reaction Nat)]
      ∧ homolysisCorrection famNoRev.label [(⟨[0], [1, 2], 4⟩ : Reaction Nat)] =
        [(⟨[0], [1, 2], 4⟩ : Reaction Nat)] := by
  constructor
  · rw [(generateReactions_homolysis_halving famHomolysis [] true ⟨[]⟩
      [(⟨[0], [1, 2], 4⟩ : Reaction Nat)]).1 (by decide)]
    rfl
  · rw [(generateReactions_homolysis_halving famNoRev [] true ⟨[]⟩
      [(⟨[0], [1, 2], 4⟩ : Reaction Nat)]).2.1 (by decide)]

/-! ## Lemmas for the recipe round trip -/

theorem lookup_cons_self (bs : List ((Nat × Nat) × Int)) (k : Nat × Nat) (v : Int) :
    ((k, v) :: bs).lookup k = some v := by
  have hb : (k == k) = true := beq_iff_eq.mpr rfl
  simp only [List.lookup_cons, hb]

theorem lookup_cons_ne (bs : List ((Nat × Nat) × Int)) (k kq : Nat × Nat) (v : Int)
    (h : kq ≠ k) : ((k, v) :: bs).lookup kq = bs.lookup kq := by
  have hb : (kq == k) = false := beq_eq_false_iff_ne.mpr h
  simp only [List.lookup_cons, hb]

theorem lookup_map_add_self (bs : List ((Nat × Nat) × Int)) (k : Nat × Nat) (d : Int) :
    (bs.map (fun e => if e.1 = k then (e.1, e.2 + d) else e)).lookup k
      = (bs.lookup k).map (fun o => o + d) := by
  induction bs with
  | nil => simp
  | cons e rest ih =>
    obtain ⟨ek, ev⟩ := e
    simp only [List.map_cons]
    by_cases hek : ek = k
    · subst hek
      rw [if_pos rfl]
      rw [lookup_cons_self, lookup_cons_self]
      rfl
    · rw [if_neg hek]
      have hne : k ≠ ek := fun h2 => hek h2.symm
      rw [lookup_cons_ne _ _ _ _ hne, lookup_cons_ne _ _ _ _ hne, ih]

theorem lookup_map_add_ne (bs : List ((Nat × Nat) × Int)) (k kq : Nat × Nat) (d : Int)
    (h : kq ≠ k) :
    (bs.map (fun e => if e.1 = k then (e.1, e.2 + d) else e)).lookup kq
      = bs.lookup kq := by
  induction bs with
  | nil => simp
  | cons e rest ih =>
    obtain ⟨ek, ev⟩ := e
    simp only [List.map_cons]
    by_cases hek : ek = k
    · subst hek
      rw [if_pos rfl]
      rw [lookup_cons_ne _ _ _ _ h, lookup_cons_ne _ _ _ _ h, ih]
    · rw [if_neg hek]
      by_cases hq : kq = ek
      · subst hq
        rw [lookup_cons_self, lookup_cons_self]
      · rw [lookup_cons_ne _ _ _ _ hq, lookup_cons_ne _ _ _ _ hq, ih]

theorem lookup_filter_ne (bs : List ((Nat × Nat) × Int)) (k kq : Nat × Nat)
    (h : kq ≠ k) :
    (bs.filter (fun e => decide (e.1 ≠ k))).lookup kq = bs.lookup kq := by
  induction bs with
  | nil => simp
  | cons e rest ih =>
    obtain ⟨ek, ev⟩ := e
    rw [List.filter_cons]
    by_cases hek : ek = k
    · subst hek
      rw [if_neg (by simp)]
      rw [lookup_cons_ne _ _ _ _ h, ih]
    · rw [if_pos (by simp [hek])]
      by_cases hq : kq = ek
      · subst hq
        rw [lookup_cons_self, lookup_cons_self]
      · rw [lookup_cons_ne _ _ _ _ hq, lookup_cons_ne _ _ _ _ hq, ih]

theorem lookup_filter_self (bs : List ((Nat × Nat) × Int)) (k : Nat × Nat) :
    (bs.filter (fun e => decide (e.1 ≠ k))).lookup k = none := by
  induction bs with
  | nil => simp
  | cons e rest ih =>
    obtain ⟨ek, ev⟩ := e
    rw [List.filter_cons]
    by_cases hek : ek = k
    · subst hek
      rw [if_neg (by simp)]
      exact ih
    · rw [if_pos (by simp [hek])]
      have hne : k ≠ ek := fun h2 => hek h2.symm
      rw [lookup_cons_ne _ _ _ _ hne]
      exact ih

theorem lookup_eq_some_mem (bs : List ((Nat × Nat) × Int)) (k : Nat × Nat) (v : Int)
    (h : bs.lookup k = some v) : (k, v) ∈ bs := by
  induction bs with
  | nil => simp at h
  | cons e rest ih =>
    obtain ⟨ek, ev⟩ := e
    by_cases hq : k = ek
    · subst hq
      rw [lookup_cons_self] at h
      cases h
      exact List.mem_cons_self _ _
    · rw [lookup_cons_ne rest ek k ev hq] at h
      exact List.mem_cons_of_mem _ (ih h)
theorem radicalSteps_gain (n r : Nat) : radicalSteps true n r = .ok (r + n) := by
  induction n generalizing r with
  | zero => simp [radicalSteps]
  | succ n ih =>
    have h : r + 1 + n = r + (n + 1) := by omega
    rw [radicalSteps]
    simp [ih (r + 1), h]

theorem radicalSteps_lose (n r : Nat) (h : n ≤ r) :
    radicalSteps false n r = .ok (r - n) := by
  induction n generalizing r with
  | zero => simp [radicalSteps]
  | succ n ih =>
    have hr : ¬(r = 0) := by omega
    have h2 : r - 1 - n = r - (n + 1) := by omega
    rw [radicalSteps]
    simp only [if_false, hr, Bool.false_eq_true]
    rw [ih (r - 1) (by omega), h2]

theorem radicalSteps_lose_ok_inv (n r v : Nat)
    (h : radicalSteps false n r = .ok v) : n ≤ r ∧ v = r - n := by
  induction n generalizing r with
  | zero =>
    simp [radicalSteps] at h
    omega
  | succ n ih =>
    rw [radicalSteps] at h
    simp only [Bool.false_eq_true, if_false] at h
    by_cases hr : r = 0
    · simp [hr] at h
    · simp only [hr, if_false] at h
      have h3 := ih (r - 1) h
      omega

theorem modifyAtom_modifyAtom (f g : Atom → Atom) (i : Nat) (l : List Atom) :
    modifyAtom f i (modifyAtom g i l) = modifyAtom (fun a => f (g a)) i l := by
  induction l generalizing i with
  | nil => simp [modifyAtom]
  | cons a as ih => cases i <;> simp [modifyAtom, ih]

theorem modifyAtom_eq_self (f : Atom → Atom) (i : Nat) (l : List Atom) (a : Atom)
    (hget : l.get? i = some a) (hf : f a = a) : modifyAtom f i l = l := by
  induction l generalizing i with
  | nil => simp at hget
  | cons b bs ih =>
    cases i with
    | zero =>
      have hba : b = a := by simpa using hget
      subst hba
      simp [modifyAtom, hf]
    | succ i =>
      have hget2 : bs.get? i = some a := hget
      simp [modifyAtom, ih i hget2]

theorem findIdx_label_congr (lab : String) (l1 : List Atom) :
    ∀ (l2 : List Atom) (st : Nat),
      (∀ j, (l1.get? j).map Atom.label = (l2.get? j).map Atom.label) →
      l1.findIdx? (fun a => a.label == lab) st = l2.findIdx? (fun a => a.label == lab) st := by
  induction l1 with
  | nil =>
    intro l2 st h
    cases l2 with
    | nil => rfl
    | cons b bs => exact absurd (h 0) (by simp)
  | cons a as ih =>
    intro l2 st h
    cases l2 with
    | nil => exact absurd (h 0) (by simp)
    | cons b bs =>
      have h0 : a.label = b.label := by
        have := h 0
        simpa using this
      have htail : ∀ j, (as.get? j).map Atom.label = (bs.get? j).map Atom.label :=
        fun j => h (j + 1)
      simp only [List.findIdx?, h0]
      by_cases hb : b.label == lab
      · simp [hb]
      · simp only [hb, cond_false]
        exact ih bs (st + 1) htail

theorem getLabeledAtom_congr (s1 s2 : Struct) (lab : String)
    (h : ∀ j, (s1.atoms.get? j).map Atom.label = (s2.atoms.get? j).map Atom.label) :
    s1.getLabeledAtom lab = s2.getLabeledAtom lab := by
  unfold Struct.getLabeledAtom
  exact findIdx_label_congr lab s1.atoms s2.atoms 0 h

theorem getTwoLabeledAtoms_ok_inv (s : Struct) (l1 l2 : String) (i1 i2 : Nat)
    (h : getTwoLabeledAtoms s l1 l2 = .ok (i1, i2)) :
    s.getLabeledAtom l1 = some i1 ∧ s.getLabeledAtom l2 = some i2 ∧ i1 ≠ i2 := by
  unfold getTwoLabeledAtoms at h
  rcases ha : s.getLabeledAtom l1 with _ | x <;> simp only [ha] at h
  · exact absurd h (by simp)
  · rcases hb : s.getLabeledAtom l2 with _ | y <;> simp only [hb] at h
    · exact absurd h (by simp)
    · split at h
      · exact absurd h (by simp)
      · cases h
        exact ⟨rfl, rfl, by assumption⟩

theorem recipeApply_single (d : Bool) (a : Action) (s : Struct) :
    recipeApply d [a] s = applyActionStep d s a := by
  unfold recipeApply
  rcases applyActionStep d s a with e | s1 <;> simp [recipeApply]

theorem struct_wfb_order (s : Struct) (hwf : s.wfb = true) (k : Nat × Nat) (o : Int)
    (h : s.bonds.lookup k = some o) : 1 ≤ o ∧ o ≤ 3 := by
  have hm := lookup_eq_some_mem s.bonds k o h
  unfold Struct.wfb at hwf
  rw [List.all_eq_true] at hwf
  have := hwf _ hm
  simpa using this

theorem iteBoolTrue {α : Sort _} (x y : α) : (if (true : Bool) = true then x else y) = x := rfl

theorem iteBoolFalse {α : Sort _} (x y : α) : (if (false : Bool) = true then x else y) = y := rfl

theorem radicalChange_roundTrip (g : Bool) (s s1 : Struct) (lab : String) (c : Int)
    (h : radicalChange g s lab c = .ok s1) :
    radicalChange (!g) s1 lab c = .ok s := by
  unfold radicalChange at h ⊢
  rcases hl : s.getLabeledAtom lab with _ | i0 <;> simp only [hl] at h
  · exact absurd h (by simp)
  rcases hga : s.atoms.get? i0 with _ | a0 <;> simp only [hga] at h
  · exact absurd h (by simp)
  rcases hrs : radicalSteps g c.toNat a0.radicals with e | rr <;> simp only [hrs] at h
  · exact absurd h (by simp)
  cases h
  have hrev : radicalSteps (!g) c.toNat rr = .ok a0.radicals := by
    cases g
    · obtain ⟨hle, hrr⟩ := radicalSteps_lose_ok_inv _ _ _ hrs
      subst hrr
      rw [Bool.not_false, radicalSteps_gain]
      congr 1
      omega
    · rw [radicalSteps_gain] at hrs
      cases hrs
      rw [Bool.not_true, radicalSteps_lose _ _ (by omega)]
      congr 1
      omega
  have hlab : ∀ j, ((modifyAtom (fun x => { x with radicals := rr }) i0 s.atoms).get? j).map
      Atom.label = (s.atoms.get? j).map Atom.label := by
    intro j
    rw [modifyAtom_get?]
    split
    · cases s.atoms.get? j <;> rfl
    · rfl
  have hl1 : Struct.getLabeledAtom
      ⟨modifyAtom (fun x => { x with radicals := rr }) i0 s.atoms, s.bonds⟩ lab
        = some i0 := by
    rw [getLabeledAtom_congr _ s lab hlab]
    exact hl
  simp only [hl1]
  have hga1 : (modifyAtom (fun x => { x with radicals := rr }) i0 s.atoms).get? i0
      = some { a0 with radicals := rr } := by
    rw [modifyAtom_get?, if_pos rfl, hga]
    rfl
  simp only [hga1, hrev]
  have hid : modifyAtom (fun x => { x with radicals := a0.radicals }) i0
      (modifyAtom (fun x => { x with radicals := rr }) i0 s.atoms) = s.atoms := by
    rw [modifyAtom_modifyAtom]
    exact modifyAtom_eq_self _ i0 s.atoms a0 hga rfl
  rw [hid]

/-- C2 (counterexample): the recipe that forms and then breaks the same bond
applies forward successfully, but applying its reverse to the result raises
`InvalidAction` (the reversed `FORM_BOND` tries to remove a bond that does
not exist), so the round trip yields no structure at all. -/
theorem recipe_roundTrip_counterexample :
    applyForward exRecipeFB exStruct2 = .ok exStruct2 ∧
      applyReverse exRecipeFB exStruct2 = .error .invalidAction := by
  constructor <;> rfl

/-- C2 (amended): for a single-action recipe, on a structure with well-formed
bond orders, when the forward application succeeds — and the action is not a
`FORM_BOND` onto an already-bonded pair nor a `BREAK_BOND` of a non-single
bond — applying the reverse recipe to the result succeeds and restores the
original structure (same atoms, same bonds); in particular `CHANGE_BOND` by
`+n` followed by the reverse `CHANGE_BOND` by `-n` restores the bond order. -/
theorem recipe_singleAction_roundTrip (a : Action) (s s1 : Struct)
    (hwf : s.wfb = true) (hsafe : roundTripSafeB a s = true)
    (hfwd : applyForward [a] s = .ok s1) :
    ∃ s2, applyReverse [a] s1 = .ok s2 ∧ structEquiv s2 s := by
  rw [applyForward, recipeApply_single] at hfwd
  rw [applyReverse]
  cases a with
  | changeBond l1 n l2 =>
    simp only [applyActionStep] at hfwd
    rcases hg : getTwoLabeledAtoms s l1 l2 with e | p <;> simp only [hg] at hfwd
    · exact absurd hfwd (by simp)
    obtain ⟨i1, i2⟩ := p
    obtain ⟨h1, h2, hne⟩ := getTwoLabeledAtoms_ok_inv s l1 l2 i1 i2 hg
    unfold bondChange at hfwd
    rcases hb : s.getBond i1 i2 with _ | o <;> simp only [hb] at hfwd
    · exact absurd hfwd (by simp)
    rw [if_true] at hfwd
    split at hfwd
    · rename_i hcond
      cases hfwd
      have ho : 1 ≤ o ∧ o ≤ 3 := struct_wfb_order s hwf (pkey i1 i2) o hb
      have hga2 : getTwoLabeledAtoms (s.changeBond i1 i2 n) l1 l2 = .ok (i1, i2) :=
        getTwoLabeledAtoms_ok _ l1 l2 i1 i2 h1 h2 hne
      have hbd : (s.changeBond i1 i2 n).getBond i1 i2 = some (o + n) := by
        show ((s.bonds.map fun e =>
          if e.1 = pkey i1 i2 then (e.1, e.2 + n) else e).lookup (pkey i1 i2)) = some (o + n)
        rw [lookup_map_add_self]
        rw [show s.bonds.lookup (pkey i1 i2) = some o from hb]
        rfl
      refine ⟨(s.changeBond i1 i2 n).changeBond i1 i2 (-n), ?_, rfl, fun k => ?_⟩
      · rw [recipeApply_single]
        simp only [applyActionStep, hga2]
        unfold bondChange
        simp only [hbd, iteBoolFalse]
        rw [if_pos (by constructor <;> omega)]
      · show ((s.changeBond i1 i2 n).bonds.map fun e =>
            if e.1 = pkey i1 i2 then (e.1, e.2 + -n) else e).lookup k = s.bonds.lookup k
        by_cases hk : k = pkey i1 i2
        · subst hk
          rw [lookup_map_add_self]
          show (((s.bonds.map fun e =>
            if e.1 = pkey i1 i2 then (e.1, e.2 + n) else e).lookup (pkey i1 i2)).map
              (fun o => o + -n)) = s.bonds.lookup (pkey i1 i2)
          rw [lookup_map_add_self]
          rw [show s.bonds.lookup (pkey i1 i2) = some o from hb]
          show some (o + n + -n) = some o
          congr 1
          omega
        · rw [lookup_map_add_ne _ _ _ _ hk]
          show ((s.bonds.map fun e =>
            if e.1 = pkey i1 i2 then (e.1, e.2 + n) else e).lookup k) = s.bonds.lookup k
          rw [lookup_map_add_ne _ _ _ _ hk]
    · exact absurd hfwd (by simp)
  | formBond l1 n l2 =>
    simp only [applyActionStep] at hfwd
    rcases hg : getTwoLabeledAtoms s l1 l2 with e | p <;> simp only [hg] at hfwd
    · exact absurd hfwd (by simp)
    obtain ⟨i1, i2⟩ := p
    obtain ⟨h1, h2, hne⟩ := getTwoLabeledAtoms_ok_inv s l1 l2 i1 i2 hg
    rw [if_true] at hfwd
    unfold bondAdd at hfwd
    cases hfwd
    have hnob : s.getBond i1 i2 = none := by
      simp only [roundTripSafeB, h1, h2] at hsafe
      unfold Struct.hasBond at hsafe
      cases hgb : s.getBond i1 i2
      · rfl
      · rw [hgb] at hsafe
        simp at hsafe
    have hga2 : getTwoLabeledAtoms (s.addBond i1 i2 1) l1 l2 = .ok (i1, i2) :=
      getTwoLabeledAtoms_ok _ l1 l2 i1 i2 h1 h2 hne
    have hhb : (s.addBond i1 i2 1).hasBond i1 i2 = true := by
      show (((pkey i1 i2, (1 : Int)) ::
        s.bonds.filter (fun e => decide (e.1 ≠ pkey i1 i2))).lookup (pkey i1 i2)).isSome = true
      rw [lookup_cons_self]
      rfl
    refine ⟨(s.addBond i1 i2 1).removeBond i1 i2, ?_, rfl, fun k => ?_⟩
    · rw [recipeApply_single]
      simp only [applyActionStep, hga2, iteBoolFalse]
      unfold bondRemove
      rw [if_pos hhb]
    · show (((pkey i1 i2, (1 : Int)) ::
          s.bonds.filter (fun e => decide (e.1 ≠ pkey i1 i2))).filter
            (fun e => decide (e.1 ≠ pkey i1 i2))).lookup k = s.bonds.lookup k
      by_cases hk : k = pkey i1 i2
      · subst hk
        rw [lookup_filter_self]
        exact hnob.symm
      · rw [lookup_filter_ne _ _ _ hk, lookup_cons_ne _ _ _ _ hk, lookup_filter_ne _ _ _ hk]
  | breakBond l1 n l2 =>
    simp only [applyActionStep] at hfwd
    rcases hg : getTwoLabeledAtoms s l1 l2 with e | p <;> simp only [hg] at hfwd
    · exact absurd hfwd (by simp)
    obtain ⟨i1, i2⟩ := p
    obtain ⟨h1, h2, hne⟩ := getTwoLabeledAtoms_ok_inv s l1 l2 i1 i2 hg
    rw [if_true] at hfwd
    unfold bondRemove at hfwd
    split at hfwd
    · cases hfwd
      have hb1 : s.getBond i1 i2 = some 1 := by
        simp only [roundTripSafeB, h1, h2] at hsafe
        exact eq_of_beq hsafe
      have hga2 : getTwoLabeledAtoms (s.removeBond i1 i2) l1 l2 = .ok (i1, i2) :=
        getTwoLabeledAtoms_ok _ l1 l2 i1 i2 h1 h2 hne
      refine ⟨(s.removeBond i1 i2).addBond i1 i2 1, ?_, rfl, fun k => ?_⟩
      · rw [recipeApply_single]
        simp only [applyActionStep, hga2, iteBoolFalse]
        rfl
      · show (((pkey i1 i2, (1 : Int)) ::
            (s.bonds.filter (fun e => decide (e.1 ≠ pkey i1 i2))).filter
              (fun e => decide (e.1 ≠ pkey i1 i2))).lookup k) = s.bonds.lookup k
        by_cases hk : k = pkey i1 i2
        · subst hk
          rw [lookup_cons_self]
          exact hb1.symm
        · rw [lookup_cons_ne _ _ _ _ hk, lookup_filter_ne _ _ _ hk, lookup_filter_ne _ _ _ hk]
    · exact absurd hfwd (by simp)
  | gainRadical lab c =>
    simp only [applyActionStep] at hfwd
    refine ⟨s, ?_, rfl, fun k => rfl⟩
    rw [recipeApply_single]
    simp only [applyActionStep]
    exact radicalChange_roundTrip true s s1 lab c hfwd
  | loseRadical lab c =>
    simp only [applyActionStep, Bool.not_true] at hfwd
    refine ⟨s, ?_, rfl, fun k => rfl⟩
    rw [recipeApply_single]
    simp only [applyActionStep, Bool.not_false]
    exact radicalChange_roundTrip false s s1 lab c hfwd

/-- Witness for the amended C2: `CHANGE_BOND(*1, +1, *2)` on the three-atom
fixture, then its reverse, restores the original structure. -/
theorem recipe_singleAction_roundTrip_witness :
    ∃ s2, applyReverse [Action.changeBond "*1" 1 "*2"]
        (Struct.mk [⟨"*1", 1⟩, ⟨"*2", 0⟩, ⟨"", 2⟩] [((0, 1), 2), ((1, 2), 2)]) = .ok s2
      ∧ structEquiv s2 exStruct3 :=
  recipe_singleAction_roundTrip (Action.changeBond "*1" 1 "*2") exStruct3
    (Struct.mk [⟨"*1", 1⟩, ⟨"*2", 0⟩, ⟨"", 2⟩] [((0, 1), 2), ((1, 2), 2)])
    (by decide) (by decide) (by decide)

/-! ## Lemmas and claims for the group-additivity fitter -/

theorem mem_insertSorted (a x : Nat) (l : List Nat) :
    a ∈ insertSorted x l ↔ a = x ∨ a ∈ l := by
  induction l with
  | nil => simp [insertSorted]
  | cons y ys ih =>
    unfold insertSorted
    by_cases h : x ≤ y
    · simp [h]
    · simp only [h, if_false, List.mem_cons, ih]
      tauto

theorem mem_sortByIndex (a : Nat) (l : List Nat) :
    a ∈ sortByIndex l ↔ a ∈ l := by
  induction l with
  | nil => simp [sortByIndex]
  | cons x xs ih =>
    show a ∈ insertSorted x (sortByIndex xs) ↔ a ∈ x :: xs
    rw [mem_insertSorted, ih]
    simp

theorem mem_fitGroupList (top : List Nat) (ancestors : Nat → List Nat)
    (templates : List (List Nat)) (e : Nat) (he : e ∈ fitGroupList top ancestors templates) :
    ∃ temp ∈ templates, ∃ group ∈ temp, group ∉ top ∧
      (e = group ∨ e ∈ (ancestors group).dropLast) := by
  unfold fitGroupList at he
  rw [mem_sortByIndex, List.mem_dedup, List.mem_flatMap] at he
  obtain ⟨temp, htemp, he2⟩ := he
  rw [List.mem_flatMap] at he2
  obtain ⟨group, hgroup, he3⟩ := he2
  by_cases hgt : group ∈ top
  · rw [if_pos hgt] at he3
    simp at he3
  · rw [if_neg hgt] at he3
    rcases List.mem_cons.mp he3 with rfl | hd
    · exact ⟨temp, htemp, e, hgroup, hgt, Or.inl rfl⟩
    · exact ⟨temp, htemp, group, hgroup, hgt, Or.inr hd⟩

/-- C9 (counterexample): called with an empty temperature list, the fitter
skips both the temperature loop and its empty-design-matrix early return, so
every entry — including the zero-observation entry 1, which is not the
first top node — is assigned non-null (empty) data instead of the null the
claim promises. -/
theorem fitGroupValues_counterexample :
    fitGroupValues (fun _ => [1]) (fun _ => []) [0] (fun _ _ => ([], [])) [] []
        (fun _ _ => 0)
      = some [(0, some []), (1, some [])] := by rfl

/-- C9 (amended): provided at least one temperature is given, a fit with no
usable least-squares rows (no templates) returns the warn-and-return
no-result outcome without raising; and in any successful fit every entry
that is not the first top node and has zero observations — it is untouched
by every template's group-plus-ancestors chain (or is itself a top node),
in a forest whose non-root ancestors are never top nodes — ends with null
data, never a defaulted value. -/
theorem fitGroupValues_nullity (descendants ancestors : Nat → List Nat)
    (top : List Nat) (solve : List (List Int) → List Int → List Int × List Int)
    (templates : List (List Nat)) (Ts : List Int) (kdata : Nat → Nat → Int) :
    (Ts ≠ [] → fitGroupValues descendants ancestors top solve [] Ts kdata = none)
    ∧ (∀ (res : List (Nat × Option (List (Int × Int)))) (e : Nat)
        (d : Option (List (Int × Int))),
        Ts ≠ [] →
        fitGroupValues descendants ancestors top solve templates Ts kdata = some res →
        some e ≠ top.head? →
        (e ∈ top ∨ ∀ temp ∈ templates, ∀ group ∈ temp, e ∉ group :: ancestors group) →
        (∀ temp ∈ templates, ∀ group ∈ temp, ∀ x ∈ (ancestors group).dropLast, x ∉ top) →
        (e, d) ∈ res → d = none) := by
  constructor
  · intro hT
    cases Ts with
    | nil => exact absurd rfl hT
    | cons T Ts2 => simp [fitGroupValues, fitMatrix]
  · intro res e d hT hres he1 hzero htop hmem
    cases Ts with
    | nil => exact absurd rfl hT
    | cons T Ts2 =>
      simp only [fitGroupValues] at hres
      split at hres
      · exact absurd hres (by simp)
      · rw [Option.some_inj] at hres
        subst hres
        obtain ⟨e2, he2, heq⟩ := List.mem_map.mp hmem
        rw [Prod.mk.injEq] at heq
        obtain ⟨he2e, hd⟩ := heq
        rw [he2e] at hd
        rw [if_neg he1] at hd
        have hnotgl : e ∉ fitGroupList top ancestors templates := by
          intro hgl
          obtain ⟨temp, htemp, group, hgroup, hgt, hcase⟩ :=
            mem_fitGroupList top ancestors templates e hgl
          rcases hzero with hetop | huntouched
          · rcases hcase with rfl | hd2
            · exact hgt hetop
            · exact htop temp htemp group hgroup e hd2 hetop
          · rcases hcase with rfl | hd2
            · exact huntouched temp htemp e hgroup (List.mem_cons_self _ _)
            · exact huntouched temp htemp group hgroup
                (List.mem_cons_of_mem _ ((List.dropLast_sublist (ancestors group)).subset hd2))
  
  
        rw [if_neg hnotgl] at hd
        exact hd.symm

/-- Witness for the amended C9: on a one-root tree with a fitted template
touching groups 2 and 1, the untouched leaf 3 ends with null data, while the
no-template call returns the no-result outcome. -/
theorem fitGroupValues_nullity_witness :
    (none : Option (List (Int × Int))) = none ∧
      fitGroupValues (fun t => if t = 0 then [1, 2, 3] else [])
          (fun g => if g = 1 then [0] else if g = 2 then [1, 0] else
            if g = 3 then [0] else [])
          [0] (fun _ _ => ([10, 20, 30], [1, 2, 3])) [] [300] (fun _ _ => 7) = none := by
  constructor
  · exact (fitGroupValues_nullity (fun t => if t = 0 then [1, 2, 3] else [])
      (fun g => if g = 1 then [0] else if g = 2 then [1, 0] else
        if g = 3 then [0] else [])
      [0] (fun _ _ => ([10, 20, 30], [1, 2, 3])) [[2]] [300] (fun _ _ => 7)).2
      [(0, some [(30, 3)]), (1, some [(10, 1)]), (2, some [(20, 2)]), (3, none)] 3 none
      (by decide) (by decide) (by decide) (by decide) (by decide) (by decide)
  · exact (fitGroupValues_nullity (fun t => if t = 0 then [1, 2, 3] else [])
      (fun g => if g = 1 then [0] else if g = 2 then [1, 0] else
        if g = 3 then [0] else [])
      [0] (fun _ _ => ([10, 20, 30], [1, 2, 3])) [] [300] (fun _ _ => 7)).1
      (by decide)

end RMG
